import Mathlib

/-!
Shallow embedding of the zrglng parallel-download core (src/main.rs).

The program probes a URL with a HEAD request (`file_info`), plans byte
ranges (`get_ranges`), fetches each range concurrently into a temporary
part file (`PartialGetter`), and concatenates the parts into the
destination (`parallel_get`), falling back to a whole-resource transfer
(`full_get`) when the server does not advertise range support.

Machine integers (`u64`) are modelled as `Nat`; the only u64 operations
the modelled code performs are division, multiplication and subtraction
whose results stay within range whenever the inputs do, except that Rust
division by zero aborts the process, which we model explicitly as a
`panicked` outcome.  Header values are modelled as `String` (the code
path through `to_str` for non-ASCII header bytes is not exercised by any
claim).  Fallible Rust functions returning `Result` are modelled with
the `Outcome` type below, which distinguishes an `Err` return (`err`,
produced by the `bail!` macro / `?` operator) from a process abort
(`panicked`, produced by `panic!`-like constructs such as `expect` and
division by zero).
-/

namespace Zrglng

/-- Outcome of running a fragment of the program: normal return,
`Err` return, or process abort. -/
inductive Outcome (α : Type) where
  | ok (val : α)
  | err (msg : String)
  | panicked (msg : String)
deriving DecidableEq, Repr

/-- Rust `std::ops::Range<u64>`: half-open interval `[start, stop)`.
The Rust field `end` is a Lean keyword, so it is named `stop` here. -/
structure Range where
  start : Nat
  stop : Nat
deriving DecidableEq, Repr

/-- Mirrors `struct RangeQuery { range: Range<u64>, idx: u64 }`
(src/main.rs lines 17-21). -/
structure RangeQuery where
  range : Range
  idx : Nat
deriving DecidableEq, Repr

/-- Mirrors `struct FileInfo { content_length: u64, supports_range: bool }`
(src/main.rs lines 11-15). -/
structure FileInfo where
  content_length : Nat
  supports_range : Bool
deriving DecidableEq, Repr

/-- Embedding of `get_ranges` (src/main.rs lines 225-240):

    let part_len = content_length / parts;
    (0..parts).map(move |idx| {
        let start = idx * part_len;
        let end = if idx + 1 < parts { (idx + 1) * part_len }
                  else { content_length };
        RangeQuery { range: (start..end), idx }
    })

Rust u64 division panics when the divisor is zero, so `parts = 0`
yields `panicked`.  The iterator is modelled as the list it produces. -/
def get_ranges (content_length parts : Nat) : Outcome (List RangeQuery) :=
  if parts = 0 then .panicked "attempt to divide by zero"
  else
    let part_len := content_length / parts
    .ok ((List.range parts).map (fun idx =>
      { range := { start := idx * part_len,
                   stop := if idx + 1 < parts then (idx + 1) * part_len
                           else content_length },
        idx := idx }))

example : get_ranges 10 3 =
    .ok [⟨⟨0, 3⟩, 0⟩, ⟨⟨3, 6⟩, 1⟩, ⟨⟨6, 10⟩, 2⟩] := by decide

example : get_ranges 3 5 =
    .ok [⟨⟨0, 0⟩, 0⟩, ⟨⟨0, 0⟩, 1⟩, ⟨⟨0, 0⟩, 2⟩, ⟨⟨0, 0⟩, 3⟩, ⟨⟨0, 3⟩, 4⟩] := by
  decide

/-- Characterization of the list produced by `get_ranges` for a nonzero
part count: its length and each element, element-wise. -/
theorem get_ranges_spec (L parts : Nat) (hp : 0 < parts) :
    ∃ rs : List RangeQuery,
      get_ranges L parts = .ok rs ∧
      rs.length = parts ∧
      ∀ i (hi : i < rs.length),
        rs.get ⟨i, hi⟩ =
          { range := { start := i * (L / parts),
                       stop := if i + 1 < parts then (i + 1) * (L / parts)
                               else L },
            idx := i } := by
  refine ⟨(List.range parts).map (fun idx =>
    { range := { start := idx * (L / parts),
                 stop := if idx + 1 < parts then (idx + 1) * (L / parts)
                         else L },
      idx := idx }), ?_, by simp, ?_⟩
  · simp [get_ranges, Nat.pos_iff_ne_zero.mp hp]
  · intro i hi
    simp only [List.get_eq_getElem, List.getElem_map, List.getElem_range]

/-- Helper: the pointwise description of the plan list, via `get?`. -/
theorem get_ranges_get? (L parts : Nat) (hp : 0 < parts) :
    ∃ rs : List RangeQuery,
      get_ranges L parts = .ok rs ∧ rs.length = parts ∧
      ∀ i, i < parts → rs.get? i = some
        { range := { start := i * (L / parts),
                     stop := if i + 1 < parts then (i + 1) * (L / parts)
                             else L },
          idx := i } := by
  obtain ⟨rs, hok, hlen, hget⟩ := get_ranges_spec L parts hp
  refine ⟨rs, hok, hlen, fun i hi => ?_⟩
  have hi' : i < rs.length := by omega
  rw [List.get?_eq_get hi', hget i hi']

/-- C1: for every `total_length ≥ 1` and `1 ≤ parts ≤ total_length`, the
planner returns exactly `parts` ranges ordered by index with
`part_len = total_length / parts`, `start(i) = i * part_len`,
`end(i) = (i+1) * part_len` for all but the last index and
`end(parts-1) = total_length`; the ranges are contiguous,
non-overlapping, and their union is exactly `[0, total_length)`;
and `plan(10, 3) = [0,3), [3,6), [6,10)`. -/
theorem get_ranges_valid_plan (L parts : Nat)
    (hL : 1 ≤ L) (h1 : 1 ≤ parts) (h2 : parts ≤ L) :
    ∃ rs : List RangeQuery,
      get_ranges L parts = .ok rs ∧
      rs.length = parts ∧
      (∀ i, i < parts → rs.get? i = some
        { range := { start := i * (L / parts),
                     stop := if i + 1 < parts then (i + 1) * (L / parts)
                             else L },
          idx := i }) ∧
      (∀ i ri rnext, rs.get? i = some ri → rs.get? (i + 1) = some rnext →
        rnext.range.start = ri.range.stop) ∧
      (∀ i j ri rj, rs.get? i = some ri → rs.get? j = some rj → i < j →
        ri.range.stop ≤ rj.range.start) ∧
      (∀ x, x < L ↔ ∃ rq ∈ rs, rq.range.start ≤ x ∧ x < rq.range.stop) ∧
      get_ranges 10 3 = .ok [⟨⟨0, 3⟩, 0⟩, ⟨⟨3, 6⟩, 1⟩, ⟨⟨6, 10⟩, 2⟩] := by
  obtain ⟨rs, hok, hlen, hget⟩ := get_ranges_get? L parts (by omega)
  have hpl : 1 ≤ L / parts := (Nat.one_le_div_iff (by omega)).mpr h2
  set pl := L / parts with hpldef
  have hsome : ∀ i rq, rs.get? i = some rq → i < parts := by
    intro i rq h
    by_contra hge
    rw [List.get?_eq_none.mpr (by omega)] at h
    cases h
  refine ⟨rs, hok, hlen, hget, ?_, ?_, ?_, by decide⟩
  · -- contiguity
    intro i ri rnext hri hrnext
    have hi1 : i + 1 < parts := hsome (i + 1) rnext hrnext
    rw [hget i (by omega)] at hri
    rw [hget (i + 1) hi1] at hrnext
    cases hri; cases hrnext
    simp only [if_pos hi1]
  · -- non-overlap
    intro i j ri rj hri hrj hij
    have hj : j < parts := hsome j rj hrj
    have hi1 : i + 1 < parts := by omega
    rw [hget i (by omega)] at hri
    rw [hget j hj] at hrj
    cases hri; cases hrj
    simp only [if_pos hi1]
    exact Nat.mul_le_mul_right pl (by omega)
  · -- union is exactly [0, L)
    intro x
    constructor
    · intro hx
      by_cases hcase : x / pl < parts - 1
      · -- the range at index x / pl contains x
        refine ⟨{ range := { start := (x / pl) * pl,
                             stop := if x / pl + 1 < parts then (x / pl + 1) * pl
                                     else L },
                  idx := x / pl }, ?_, ?_, ?_⟩
        · exact List.get?_mem (hget (x / pl) (by omega))
        · exact Nat.div_mul_le_self x pl
        · have hmod : x % pl < pl := Nat.mod_lt x (by omega)
          have hdm : pl * (x / pl) + x % pl = x := Nat.div_add_mod x pl
          simp only [if_pos (show x / pl + 1 < parts by omega)]
          calc x = pl * (x / pl) + x % pl := hdm.symm
            _ < pl * (x / pl) + pl := by omega
            _ = (x / pl + 1) * pl := by ring
      · -- the last range contains x
        refine ⟨{ range := { start := (parts - 1) * pl,
                             stop := if parts - 1 + 1 < parts then (parts - 1 + 1) * pl
                                     else L },
                  idx := parts - 1 }, ?_, ?_, ?_⟩
        · exact List.get?_mem (hget (parts - 1) (by omega))
        · have : parts - 1 ≤ x / pl := by omega
          exact (Nat.le_div_iff_mul_le (by omega)).mp this
        · simp only [if_neg (show ¬(parts - 1 + 1 < parts) by omega)]
          exact hx
    · rintro ⟨rq, hmem, hlo, hhi⟩
      obtain ⟨i, hfix⟩ := List.get_of_mem hmem
      have hi' : (i : Nat) < parts := by have := i.isLt; omega
      have hform := hget (i : Nat) hi'
      rw [List.get?_eq_get i.isLt] at hform
      have hrq : rq = { range := { start := (i : Nat) * pl,
                                   stop := if (i : Nat) + 1 < parts
                                           then ((i : Nat) + 1) * pl else L },
                        idx := (i : Nat) } := by
        rw [← hfix]; exact Option.some.inj hform
      subst hrq
      dsimp only at hlo hhi
      have hstople : (if (i : Nat) + 1 < parts then ((i : Nat) + 1) * pl else L) ≤ L := by
        by_cases hc : (i : Nat) + 1 < parts
        · simp only [if_pos hc]
          calc ((i : Nat) + 1) * pl ≤ parts * pl := Nat.mul_le_mul_right pl (by omega)
            _ = pl * parts := by ring
            _ = L / parts * parts := by rw [hpldef]
            _ ≤ L := Nat.div_mul_le_self L parts
        · simp only [if_neg hc]
          exact le_refl L
      omega

/-- Witness for `get_ranges_valid_plan` at `L = 10`, `parts = 3`. -/
theorem get_ranges_valid_plan_witness :
    (1 ≤ (10 : Nat)) ∧ (1 ≤ (3 : Nat)) ∧ ((3 : Nat) ≤ 10) ∧
    (∃ rs : List RangeQuery,
      get_ranges 10 3 = .ok rs ∧
      rs.length = 3 ∧
      (∀ i, i < 3 → rs.get? i = some
        { range := { start := i * (10 / 3),
                     stop := if i + 1 < 3 then (i + 1) * (10 / 3)
                             else 10 },
          idx := i }) ∧
      (∀ i ri rnext, rs.get? i = some ri → rs.get? (i + 1) = some rnext →
        rnext.range.start = ri.range.stop) ∧
      (∀ i j ri rj, rs.get? i = some ri → rs.get? j = some rj → i < j →
        ri.range.stop ≤ rj.range.start) ∧
      (∀ x, x < 10 ↔ ∃ rq ∈ rs, rq.range.start ≤ x ∧ x < rq.range.stop) ∧
      get_ranges 10 3 = .ok [⟨⟨0, 3⟩, 0⟩, ⟨⟨3, 6⟩, 1⟩, ⟨⟨6, 10⟩, 2⟩]) :=
  ⟨by decide, by decide, by decide,
    get_ranges_valid_plan 10 3 (by decide) (by decide) (by decide)⟩

/-- C7 (amended): for every length `L` and every `requested_parts ≥ 1`,
the plan is ordered by index with `start(0) = 0`, `end(N-1) = L` and
`start(i+1) = end(i)` for all `i`; no range is empty provided
`parts ≤ L` (when `parts > L`, `part_len = 0` and every range except
the last is empty even though `L ≠ 0`). -/
theorem get_ranges_plan_invariant (L parts : Nat) (h1 : 1 ≤ parts) :
    ∃ rs : List RangeQuery,
      get_ranges L parts = .ok rs ∧
      rs.length = parts ∧
      (∀ i rq, rs.get? i = some rq → rq.idx = i) ∧
      (∃ rq0, rs.get? 0 = some rq0 ∧ rq0.range.start = 0) ∧
      (∃ rql, rs.get? (parts - 1) = some rql ∧ rql.range.stop = L) ∧
      (∀ i ri rnext, rs.get? i = some ri → rs.get? (i + 1) = some rnext →
        rnext.range.start = ri.range.stop) ∧
      (parts ≤ L → ∀ rq ∈ rs, rq.range.start < rq.range.stop) := by
  obtain ⟨rs, hok, hlen, hget⟩ := get_ranges_get? L parts (by omega)
  set pl := L / parts with hpldef
  have hsome : ∀ i rq, rs.get? i = some rq → i < parts := by
    intro i rq h
    by_contra hge
    rw [List.get?_eq_none.mpr (by omega)] at h
    cases h
  refine ⟨rs, hok, hlen, ?_, ?_, ?_, ?_, ?_⟩
  · intro i rq hrq
    have hi : i < parts := hsome i rq hrq
    rw [hget i hi] at hrq
    cases hrq; rfl
  · exact ⟨_, hget 0 (by omega), by simp⟩
  · refine ⟨_, hget (parts - 1) (by omega), ?_⟩
    simp only [if_neg (show ¬(parts - 1 + 1 < parts) by omega)]
  · intro i ri rnext hri hrnext
    have hi1 : i + 1 < parts := hsome (i + 1) rnext hrnext
    rw [hget i (by omega)] at hri
    rw [hget (i + 1) hi1] at hrnext
    cases hri; cases hrnext
    simp only [if_pos hi1]
  · intro hple rq hmem
    have hpl : 1 ≤ pl := (Nat.one_le_div_iff (by omega)).mpr hple
    obtain ⟨i, hfix⟩ := List.get_of_mem hmem
    have hi' : (i : Nat) < parts := by have := i.isLt; omega
    have hform := hget (i : Nat) hi'
    rw [List.get?_eq_get i.isLt] at hform
    have hrq : rq = { range := { start := (i : Nat) * pl,
                                 stop := if (i : Nat) + 1 < parts
                                         then ((i : Nat) + 1) * pl else L },
                      idx := (i : Nat) } := by
      rw [← hfix]; exact Option.some.inj hform
    subst hrq
    dsimp only
    by_cases hc : (i : Nat) + 1 < parts
    · simp only [if_pos hc]
      have : (i : Nat) * pl < ((i : Nat) + 1) * pl :=
        Nat.mul_lt_mul_of_lt_of_le (by omega) (le_refl pl) (by omega)
      exact this
    · simp only [if_neg hc]
      have hieq : (i : Nat) = parts - 1 := by omega
      have hmul : parts * pl ≤ L := by
        calc parts * pl = pl * parts := by ring
          _ = L / parts * parts := by rw [hpldef]
          _ ≤ L := Nat.div_mul_le_self L parts
      calc (i : Nat) * pl = (parts - 1) * pl := by rw [hieq]
        _ < L := by
            have : (parts - 1) * pl + pl = parts * pl := by
              have : parts - 1 + 1 = parts := by omega
              calc (parts - 1) * pl + pl = (parts - 1 + 1) * pl := by ring
                _ = parts * pl := by rw [this]
            omega

/-- Witness for `get_ranges_plan_invariant` at `L = 10`, `parts = 4`. -/
theorem get_ranges_plan_invariant_witness :
    (1 ≤ (4 : Nat)) ∧
    (∃ rs : List RangeQuery,
      get_ranges 10 4 = .ok rs ∧
      rs.length = 4 ∧
      (∀ i rq, rs.get? i = some rq → rq.idx = i) ∧
      (∃ rq0, rs.get? 0 = some rq0 ∧ rq0.range.start = 0) ∧
      (∃ rql, rs.get? (4 - 1) = some rql ∧ rql.range.stop = 10) ∧
      (∀ i ri rnext, rs.get? i = some ri → rs.get? (i + 1) = some rnext →
        rnext.range.start = ri.range.stop) ∧
      ((4 : Nat) ≤ 10 → ∀ rq ∈ rs, rq.range.start < rq.range.stop)) :=
  ⟨by decide, get_ranges_plan_invariant 10 4 (by decide)⟩

/-- C7 counterexample: for `L = 3`, `parts = 5`, the plan contains the
empty range `[0, 0)` at index 0 even though `L ≠ 0`, refuting the claim
that no range is empty unless `L = 0`. -/
theorem get_ranges_empty_range_counterexample :
    get_ranges 3 5 =
      .ok [⟨⟨0, 0⟩, 0⟩, ⟨⟨0, 0⟩, 1⟩, ⟨⟨0, 0⟩, 2⟩, ⟨⟨0, 0⟩, 3⟩, ⟨⟨0, 3⟩, 4⟩] ∧
    (⟨⟨0, 0⟩, 0⟩ : RangeQuery) ∈
      [(⟨⟨0, 0⟩, 0⟩ : RangeQuery), ⟨⟨0, 0⟩, 1⟩, ⟨⟨0, 0⟩, 2⟩, ⟨⟨0, 0⟩, 3⟩, ⟨⟨0, 3⟩, 4⟩] ∧
    ¬ ((0 : Nat) < (0 : Nat)) ∧ (3 : Nat) ≠ 0 := by
  refine ⟨by decide, by decide, by decide, by decide⟩

/-- Model of an HTTP HEAD response: status code plus the two headers the
program reads.  Header values are modelled as `Option String` (absent or
present with the given text). -/
structure HttpHead where
  status : Nat
  content_length : Option String
  accept_ranges : Option String
deriving DecidableEq, Repr

/-- Mirrors `reqwest::StatusCode::is_success`: 2xx status codes. -/
def is_success (status : Nat) : Bool :=
  200 ≤ status && status < 300

/-- Value of one ASCII decimal digit. -/
def digit_val (c : Char) : Option Nat :=
  if '0' ≤ c && c ≤ '9' then some (c.toNat - '0'.toNat) else none

/-- Accumulating decimal parse of a digit list; `none` on any non-digit. -/
def parse_digits : List Char → Nat → Option Nat
  | [], acc => some acc
  | c :: cs, acc =>
    match digit_val c with
    | none => none
    | some d => parse_digits cs (acc * 10 + d)

/-- Model of Rust `str::parse::<u64>`: an optional leading plus sign,
then one or more ASCII digits, rejecting values at or above `2 ^ 64`
(overflow). -/
def parse_u64 (s : String) : Option Nat :=
  let cs := match s.data with
    | '+' :: rest => rest
    | other => other
  match cs with
  | [] => none
  | _ =>
    match parse_digits cs 0 with
    | none => none
    | some n => if n < 2 ^ 64 then some n else none

example : parse_u64 "1000" = some 1000 := by decide
example : parse_u64 "" = none := by decide
example : parse_u64 "12a" = none := by decide

/-- Embedding of `file_info` (src/main.rs lines 110-139): fail on a
non-2xx status; read `Content-Length`, defaulting an absent header to
`"0"` before parsing, and failing when the parse fails; read
`Accept-Ranges` and compare it against the literal `"bytes"`,
defaulting an absent header to unsupported. -/
def file_info (res : HttpHead) : Outcome FileInfo :=
  if !is_success res.status then .err "invalid status code"
  else
    match parse_u64 (res.content_length.getD "0") with
    | none => .err "invalid content-length header"
    | some n =>
      .ok { content_length := n,
            supports_range := (res.accept_ranges.map (fun v => v == "bytes")).getD false }

/-- Which fetch path `parallel_get` takes: the single whole-resource
transfer (`full_get`), or the concurrent ranged path with its plan. -/
inductive Route where
  | full
  | ranged (ranges : List RangeQuery)
deriving DecidableEq, Repr

/-- Embedding of the routing portion of `parallel_get` (src/main.rs
lines 141-172): probe, fall back to `full_get` when range support is
not advertised, reject a zero-length splittable resource, otherwise
plan the ranges (where a zero part count aborts on division by zero). -/
def parallel_get_route (head : HttpHead) (parts : Nat) : Outcome Route :=
  match file_info head with
  | .err e => .err e
  | .panicked m => .panicked m
  | .ok info =>
    if !info.supports_range then .ok .full
    else if info.content_length = 0 then .err "file size is 0, we cannot split it"
    else
      match get_ranges info.content_length parts with
      | .err e => .err e
      | .panicked m => .panicked m
      | .ok ranges => .ok (.ranged ranges)

/-- Embedding of the `Range` header value built by `PartialGetter::get`
(src/main.rs line 61): `format!("bytes={}-{}", start, end - 1)`. -/
def range_header (r : Range) : String :=
  "bytes=" ++ Nat.repr r.start ++ "-" ++ Nat.repr (r.stop - 1)

/-- The GET requests a route issues: one whole-resource request on the
full path (src/main.rs lines 188-196, no `Range` header), or one ranged
request per planned range (src/main.rs lines 60-74). -/
inductive Request where
  | fullGet
  | rangeGet (header : String)
deriving DecidableEq, Repr

/-- Requests issued by each route. -/
def requests_of : Route → List Request
  | .full => [.fullGet]
  | .ranged rs => rs.map (fun rq => .rangeGet (range_header rq.range))

/-- Recognizer for ranged requests. -/
def is_range_request : Request → Bool
  | .fullGet => false
  | .rangeGet _ => true

/-- C4: if `Accept-Ranges` is absent or is any value other than the
literal token `bytes`, partial retrieval is treated as unsupported and
the program performs exactly one full-resource GET, issuing zero range
requests. -/
theorem no_range_support_single_full_request (head : HttpHead) (parts : Nat)
    (info : FileInfo)
    (hok : file_info head = .ok info)
    (hnb : head.accept_ranges ≠ some "bytes") :
    info.supports_range = false ∧
    parallel_get_route head parts = .ok .full ∧
    requests_of .full = [.fullGet] ∧
    (requests_of .full).countP is_range_request = 0 := by
  have hsr : info.supports_range = false := by
    unfold file_info at hok
    cases hs : is_success head.status with
    | false =>
      rw [hs] at hok
      cases hok
    | true =>
      rw [hs] at hok
      cases hp : parse_u64 (head.content_length.getD "0") with
      | none => rw [hp] at hok; cases hok
      | some n =>
        rw [hp] at hok
        simp only [Bool.not_true, Bool.false_eq_true, if_false] at hok
        injection hok with h
        rw [← h]
        cases har : head.accept_ranges with
        | none => rfl
        | some v =>
          have hne : v ≠ "bytes" := fun hv => hnb (by rw [har, hv])
          simp [har, hne]
  refine ⟨hsr, ?_, rfl, rfl⟩
  simp [parallel_get_route, hok, hsr]

/-- Witness for `no_range_support_single_full_request` with an
`Accept-Ranges: none` header. -/
theorem no_range_support_single_full_request_witness :
    FileInfo.supports_range { content_length := 5, supports_range := false } = false ∧
    parallel_get_route { status := 200, content_length := some "5",
                         accept_ranges := some "none" } 4 = .ok .full ∧
    requests_of .full = [.fullGet] ∧
    (requests_of .full).countP is_range_request = 0 :=
  no_range_support_single_full_request
    { status := 200, content_length := some "5", accept_ranges := some "none" }
    4 { content_length := 5, supports_range := false } (by decide) (by decide)

/-- C8: the prober fails on a non-2xx status; it treats an absent
`Content-Length` header as length 0 rather than failing; and it fails
when the header is present but does not parse as an unsigned 64-bit
integer. -/
theorem file_info_error_policy (head : HttpHead) :
    (is_success head.status = false →
      file_info head = .err "invalid status code") ∧
    (is_success head.status = true → head.content_length = none →
      ∃ info, file_info head = .ok info ∧ info.content_length = 0) ∧
    (is_success head.status = true →
      ∀ s, head.content_length = some s → parse_u64 s = none →
        file_info head = .err "invalid content-length header") := by
  refine ⟨?_, ?_, ?_⟩
  · intro hs
    simp [file_info, hs]
  · intro hs habs
    refine ⟨{ content_length := 0,
              supports_range :=
                (head.accept_ranges.map (fun v => v == "bytes")).getD false },
            ?_, rfl⟩
    simp [file_info, hs, habs]
    rfl
  · intro hs s hcl hparse
    simp [file_info, hs, hcl, hparse]

/-- Witness for `file_info_error_policy`: a 404 response, a 200 response
with no `Content-Length`, and a 200 response with `Content-Length: 12a`. -/
theorem file_info_error_policy_witness :
    file_info { status := 404, content_length := none, accept_ranges := none }
      = .err "invalid status code" ∧
    (∃ info, file_info { status := 200, content_length := none,
                         accept_ranges := some "bytes" } = .ok info ∧
      info.content_length = 0) ∧
    file_info { status := 200, content_length := some "12a", accept_ranges := none }
      = .err "invalid content-length header" :=
  ⟨(file_info_error_policy
      { status := 404, content_length := none, accept_ranges := none }).1 (by decide),
   (file_info_error_policy
      { status := 200, content_length := none, accept_ranges := some "bytes" }).2.1
      (by decide) rfl,
   (file_info_error_policy
      { status := 200, content_length := some "12a", accept_ranges := none }).2.2
      (by decide) "12a" rfl (by decide)⟩

/-- C9: when the server advertises range support and the reported length
is zero, `parallel_get` returns the cannot-split error; when the length
is nonzero but the requested part count is zero, the eager division in
`get_ranges` aborts the process (failing fast without producing any
plan). -/
theorem degenerate_plan_fails_fast (head : HttpHead) (info : FileInfo) (parts : Nat)
    (hok : file_info head = .ok info)
    (hsr : info.supports_range = true) :
    (info.content_length = 0 →
      parallel_get_route head parts = .err "file size is 0, we cannot split it") ∧
    (info.content_length ≠ 0 → parts = 0 →
      parallel_get_route head parts = .panicked "attempt to divide by zero") := by
  constructor
  · intro hzero
    simp [parallel_get_route, hok, hsr, hzero]
  · intro hnz hparts
    simp [parallel_get_route, hok, hsr, hnz, hparts, get_ranges]

/-- Witness for `degenerate_plan_fails_fast`: a zero-length ranged
resource, and a zero part count over a length-7 resource. -/
theorem degenerate_plan_fails_fast_witness :
    parallel_get_route { status := 200, content_length := some "0",
                         accept_ranges := some "bytes" } 4
      = .err "file size is 0, we cannot split it" ∧
    parallel_get_route { status := 200, content_length := some "7",
                         accept_ranges := some "bytes" } 0
      = .panicked "attempt to divide by zero" :=
  ⟨(degenerate_plan_fails_fast
      { status := 200, content_length := some "0", accept_ranges := some "bytes" }
      { content_length := 0, supports_range := true } 4 (by decide) rfl).1 rfl,
   (degenerate_plan_fails_fast
      { status := 200, content_length := some "7", accept_ranges := some "bytes" }
      { content_length := 7, supports_range := true } 0 (by decide) rfl).2
      (by decide) rfl⟩

/-- C3 counterexample: with range support advertised, length 10 and
`parts = 1`, `parallel_get` does NOT route to the single-fetch
`full_get` path: it takes the ranged path, issues a request carrying
the range selector `bytes=0-9`, and creates a temporary part file. -/
theorem single_part_counterexample :
    parallel_get_route { status := 200, content_length := some "10",
                         accept_ranges := some "bytes" } 1
      = .ok (.ranged [⟨⟨0, 10⟩, 0⟩]) ∧
    parallel_get_route { status := 200, content_length := some "10",
                         accept_ranges := some "bytes" } 1 ≠ .ok .full ∧
    requests_of (.ranged [⟨⟨0, 10⟩, 0⟩]) = [.rangeGet "bytes=0-9"] ∧
    Request.rangeGet "bytes=0-9" ∈ requests_of (.ranged [⟨⟨0, 10⟩, 0⟩]) := by
  refine ⟨by decide, by decide, by decide, by decide⟩

/-- C3 (amended): `parallel_get` routes to the single-fetch `full_get`
path only when `supports_range` is false; when the server supports
partial retrieval, a nonzero length and `requested_parts = 1` take the
partial path with a single planned range `[0, total_length)`, issuing
one range request `bytes=0-(total_length - 1)` (and hence one temporary
part file) rather than a whole-resource request. -/
theorem single_part_uses_range_path (head : HttpHead) (info : FileInfo)
    (hok : file_info head = .ok info)
    (hsr : info.supports_range = true)
    (hL : info.content_length ≠ 0) :
    parallel_get_route head 1
      = .ok (.ranged [⟨⟨0, info.content_length⟩, 0⟩]) ∧
    requests_of (.ranged [⟨⟨0, info.content_length⟩, 0⟩])
      = [.rangeGet ("bytes=0-" ++ Nat.repr (info.content_length - 1))] := by
  constructor
  · simp [parallel_get_route, hok, hsr, hL, get_ranges, List.range_succ]
  · have hfold : ("bytes=" ++ Nat.repr 0 ++ "-") = "bytes=0-" := rfl
    simp only [requests_of, List.map, range_header]
    rw [← hfold]

/-- Witness for `single_part_uses_range_path` at length 10. -/
theorem single_part_uses_range_path_witness :
    parallel_get_route { status := 200, content_length := some "10",
                         accept_ranges := some "bytes" } 1
      = .ok (.ranged [⟨⟨0, 10⟩, 0⟩]) ∧
    requests_of (.ranged [⟨⟨0, 10⟩, 0⟩])
      = [.rangeGet ("bytes=0-" ++ Nat.repr (10 - 1))] :=
  single_part_uses_range_path
    { status := 200, content_length := some "10", accept_ranges := some "bytes" }
    { content_length := 10, supports_range := true } (by decide) rfl (by decide)

/-- C5: every partial request carries the header
`bytes=<start>-<end-1>`; for length 1000 and `parts = 4` the four
requests carry `bytes=0-249`, `bytes=250-499`, `bytes=500-749`,
`bytes=750-999`, and the planned ranges sum to exactly 1000 bytes. -/
theorem range_header_format :
    (∀ r : Range, range_header r
      = "bytes=" ++ Nat.repr r.start ++ "-" ++ Nat.repr (r.stop - 1)) ∧
    (∀ rqs : List RangeQuery, requests_of (.ranged rqs)
      = rqs.map (fun rq => .rangeGet
          ("bytes=" ++ Nat.repr rq.range.start ++ "-" ++ Nat.repr (rq.range.stop - 1)))) ∧
    parallel_get_route { status := 200, content_length := some "1000",
                         accept_ranges := some "bytes" } 4
      = .ok (.ranged [⟨⟨0, 250⟩, 0⟩, ⟨⟨250, 500⟩, 1⟩, ⟨⟨500, 750⟩, 2⟩, ⟨⟨750, 1000⟩, 3⟩]) ∧
    requests_of (.ranged [⟨⟨0, 250⟩, 0⟩, ⟨⟨250, 500⟩, 1⟩, ⟨⟨500, 750⟩, 2⟩, ⟨⟨750, 1000⟩, 3⟩])
      = [.rangeGet "bytes=0-249", .rangeGet "bytes=250-499",
         .rangeGet "bytes=500-749", .rangeGet "bytes=750-999"] ∧
    (([⟨⟨0, 250⟩, 0⟩, ⟨⟨250, 500⟩, 1⟩, ⟨⟨500, 750⟩, 2⟩,
       (⟨⟨750, 1000⟩, 3⟩ : RangeQuery)]).map
        (fun rq => rq.range.stop - rq.range.start)).sum = 1000 := by
  refine ⟨fun r => rfl, fun rqs => rfl, by decide, by decide, by decide⟩

/-- A completed temporary part file: its path and the bytes a fetcher
streamed into it.  Bytes are modelled as `List Nat`. -/
structure PartFile where
  path : String
  bytes : List Nat
deriving DecidableEq, Repr

/-- Embedding of `files.into_iter().collect::<Result<Vec<_>>>()`
(src/main.rs line 178): the first `Err` in order aborts the collection. -/
def collect_results {α : Type} : List (Outcome α) → Outcome (List α)
  | [] => .ok []
  | .ok a :: rest =>
    match collect_results rest with
    | .ok vals => .ok (a :: vals)
    | .err e => .err e
    | .panicked m => .panicked m
  | .err e :: _ => .err e
  | .panicked m :: _ => .panicked m

/-- Comparison used by `files.sort_unstable_by_key(|&(idx, _)| idx)`
(src/main.rs line 179). -/
def key_le (a b : Nat × PartFile) : Prop := a.1 ≤ b.1

instance : DecidableRel key_le := fun a b => inferInstanceAs (Decidable (a.1 ≤ b.1))

instance : IsTotal (Nat × PartFile) key_le := ⟨fun a b => Nat.le_total a.1 b.1⟩

instance : IsTrans (Nat × PartFile) key_le := ⟨fun _ _ _ h1 h2 => Nat.le_trans h1 h2⟩

/-- Embedding of the index sort at src/main.rs line 179. -/
def sort_by_key (files : List (Nat × PartFile)) : List (Nat × PartFile) :=
  files.insertionSort key_le

/-- Strict index comparison, used to show the sort result is unique. -/
def key_lt (a b : Nat × PartFile) : Prop := a.1 < b.1

instance : IsAntisymm (Nat × PartFile) key_lt :=
  ⟨fun _ _ h1 h2 => absurd (Nat.lt_trans h1 h2) (Nat.lt_irrefl _)⟩

/-- File-system operations performed by the assembly loop. -/
inductive FsOp where
  | create_dest
  | copy (path : String)
  | remove (path : String)
deriving DecidableEq, Repr

/-- Embedding of the assembly loop (src/main.rs lines 180-184): for each
part in order, copy its bytes to the destination then delete the
temporary file.  Returns the destination contents and the operation
trace. -/
def copy_loop (dest : List Nat) : List (Nat × PartFile) → List Nat × List FsOp
  | [] => (dest, [])
  | (_, f) :: rest =>
    let next := copy_loop (dest ++ f.bytes) rest
    (next.1, FsOp.copy f.path :: FsOp.remove f.path :: next.2)

/-- Embedding of the post-fetch phase of `parallel_get` (src/main.rs
lines 174-185).  `prior` is whatever the destination file held before
the call; `fs::File::create(&dest)` (line 177) truncates it to empty
BEFORE the part results are checked (line 178).  Returns the function
result, the final destination contents, and the trace of file-system
operations. -/
def assemble_phase (prior : List Nat) (results : List (Outcome (Nat × PartFile))) :
    Outcome Unit × List Nat × List FsOp :=
  let dest0 : List Nat := []
  match collect_results results with
  | .err e => (.err e, dest0, [FsOp.create_dest])
  | .panicked m => (.panicked m, dest0, [FsOp.create_dest])
  | .ok files =>
    let out := copy_loop dest0 (sort_by_key files)
    (.ok (), out.1, FsOp.create_dest :: out.2)

/-- Collecting only successes yields the payload list. -/
theorem collect_results_map_ok {α : Type} (l : List α) :
    collect_results (l.map Outcome.ok) = .ok l := by
  induction l with
  | nil => rfl
  | cons a t ih => simp [collect_results, ih]

/-- Collecting stops at the first error. -/
theorem collect_results_first_err {α : Type} (pre post : List (Outcome α)) (e : String)
    (hpre : ∀ r ∈ pre, ∃ v, r = .ok v) :
    collect_results (pre ++ .err e :: post) = .err e := by
  induction pre with
  | nil => rfl
  | cons r t ih =>
    obtain ⟨v, rfl⟩ := hpre r (List.mem_cons_self r t)
    have ht : ∀ x ∈ t, ∃ v, x = .ok v := fun x hx => hpre x (List.mem_cons_of_mem _ hx)
    simp [collect_results, ih ht]

/-- A sorted list with distinct keys is strictly sorted. -/
theorem sorted_key_lt_of_nodup (l : List (Nat × PartFile))
    (hs : l.Sorted key_le) (hn : (l.map Prod.fst).Nodup) : l.Sorted key_lt := by
  rw [List.Nodup, List.pairwise_map] at hn
  exact (hs.and hn).imp (fun h => lt_of_le_of_ne h.1 h.2)

/-- Sorting by index is insensitive to the arrival permutation as long
as indices are unique. -/
theorem sort_by_key_eq_of_perm (l1 l2 : List (Nat × PartFile))
    (hperm : l1.Perm l2) (hnd : (l1.map Prod.fst).Nodup) :
    sort_by_key l1 = sort_by_key l2 := by
  have hp1 : (sort_by_key l1).Perm l1 := List.perm_insertionSort key_le l1
  have hp2 : (sort_by_key l2).Perm l2 := List.perm_insertionSort key_le l2
  have hs1 : (sort_by_key l1).Sorted key_le := List.sorted_insertionSort key_le l1
  have hs2 : (sort_by_key l2).Sorted key_le := List.sorted_insertionSort key_le l2
  have hnd1 : ((sort_by_key l1).map Prod.fst).Nodup :=
    ((hp1.map Prod.fst).nodup_iff).mpr hnd
  have hnd2' : (l2.map Prod.fst).Nodup := ((hperm.map Prod.fst).nodup_iff).mp hnd
  have hnd2 : ((sort_by_key l2).map Prod.fst).Nodup :=
    ((hp2.map Prod.fst).nodup_iff).mpr hnd2'
  exact List.eq_of_perm_of_sorted (hp1.trans (hperm.trans hp2.symm))
    (sorted_key_lt_of_nodup _ hs1 hnd1) (sorted_key_lt_of_nodup _ hs2 hnd2)

/-- In the copy-loop trace, each copy is immediately followed by the
removal of the same temporary file. -/
theorem copy_loop_remove_after_copy (l : List (Nat × PartFile)) (dest : List Nat) :
    ∀ n p, (copy_loop dest l).2.get? n = some (FsOp.copy p) →
      (copy_loop dest l).2.get? (n + 1) = some (FsOp.remove p) := by
  induction l generalizing dest with
  | nil => intro n p h; simp [copy_loop] at h
  | cons hd t ih =>
    intro n p h
    obtain ⟨idx, f⟩ := hd
    match n with
    | 0 =>
      simp [copy_loop] at h ⊢
      exact h
    | 1 =>
      simp [copy_loop] at h
    | Nat.succ (Nat.succ m) =>
      simp only [copy_loop, List.get?_cons_succ] at h ⊢
      exact ih (dest ++ f.bytes) m p h

/-- C2 (amended): if any part fetch failed, the whole operation fails
with the first part error and nothing is copied into the destination
(no partial-success output); however `fs::File::create(&dest)` runs
before the part results are checked, so the destination is truncated to
empty — its prior contents are destroyed — even though the operation
fails. -/
theorem part_failure_fails_whole_operation (prior : List Nat)
    (pre post : List (Outcome (Nat × PartFile))) (e : String)
    (hpre : ∀ r ∈ pre, ∃ v, r = .ok v) :
    (assemble_phase prior (pre ++ .err e :: post)).1 = .err e ∧
    (assemble_phase prior (pre ++ .err e :: post)).2.1 = [] ∧
    (assemble_phase prior (pre ++ .err e :: post)).2.2 = [FsOp.create_dest] := by
  have hc := collect_results_first_err pre post e hpre
  refine ⟨?_, ?_, ?_⟩ <;> simp [assemble_phase, hc]

/-- Witness for `part_failure_fails_whole_operation`: one successful
part followed by a failed one. -/
theorem part_failure_fails_whole_operation_witness :
    (∀ r ∈ [Outcome.ok ((0 : Nat), PartFile.mk ".f.part-0" [9, 9])], ∃ v, r = .ok v) ∧
    ((assemble_phase [1, 2, 3]
        ([.ok (0, PartFile.mk ".f.part-0" [9, 9])] ++
          .err "invalid status code: 500 Internal Server Error" :: [])).1
      = .err "invalid status code: 500 Internal Server Error" ∧
    (assemble_phase [1, 2, 3]
        ([.ok (0, PartFile.mk ".f.part-0" [9, 9])] ++
          .err "invalid status code: 500 Internal Server Error" :: [])).2.1
      = [] ∧
    (assemble_phase [1, 2, 3]
        ([.ok (0, PartFile.mk ".f.part-0" [9, 9])] ++
          .err "invalid status code: 500 Internal Server Error" :: [])).2.2
      = [FsOp.create_dest]) :=
  ⟨fun r hr => ⟨(0, PartFile.mk ".f.part-0" [9, 9]), by
      simpa using hr⟩,
   part_failure_fails_whole_operation [1, 2, 3]
     [.ok (0, PartFile.mk ".f.part-0" [9, 9])] []
     "invalid status code: 500 Internal Server Error"
     (fun r hr => ⟨(0, PartFile.mk ".f.part-0" [9, 9]), by simpa using hr⟩)⟩

/-- C2 counterexample: the destination file held `[1, 2, 3]`; one part
failed; the operation fails, yet the destination ends up empty — its
prior contents were destroyed before part failures were checked,
refuting the claim that they are preserved. -/
theorem dest_truncated_before_error_check :
    (assemble_phase [1, 2, 3]
        [.ok (0, PartFile.mk ".f.part-0" [9, 9]), .err "invalid status code: 500"]).1
      = .err "invalid status code: 500" ∧
    (assemble_phase [1, 2, 3]
        [.ok (0, PartFile.mk ".f.part-0" [9, 9]), .err "invalid status code: 500"]).2.1
      = [] ∧
    ([] : List Nat) ≠ [1, 2, 3] := by
  refine ⟨by decide, by decide, by decide⟩

/-- C6: the destination byte layout is independent of completion order:
for any permutation of the same dense, unique-index part results, the
assembly phase produces identical results (same destination bytes and
same operation trace), and in the trace every copy of a temporary file
is immediately followed by its removal. -/
theorem assembly_order_independent (l1 l2 : List (Nat × PartFile))
    (hperm : l1.Perm l2) (hnd : (l1.map Prod.fst).Nodup) :
    assemble_phase [] (l1.map Outcome.ok) = assemble_phase [] (l2.map Outcome.ok) ∧
    (∀ n p, (assemble_phase [] (l1.map Outcome.ok)).2.2.get? n = some (FsOp.copy p) →
      (assemble_phase [] (l1.map Outcome.ok)).2.2.get? (n + 1) = some (FsOp.remove p)) := by
  have hsort := sort_by_key_eq_of_perm l1 l2 hperm hnd
  constructor
  · simp [assemble_phase, collect_results_map_ok, hsort]
  · intro n p h
    simp only [assemble_phase, collect_results_map_ok] at h ⊢
    match n with
    | 0 => simp at h
    | Nat.succ m =>
      simp only [List.get?_cons_succ] at h ⊢
      exact copy_loop_remove_after_copy _ _ m p h

/-- Witness for `assembly_order_independent`: two parts arriving in
reversed order. -/
theorem assembly_order_independent_witness :
    ([((1 : Nat), PartFile.mk ".f.part-1" [5]),
      ((0 : Nat), PartFile.mk ".f.part-0" [4])].Perm
      [((0 : Nat), PartFile.mk ".f.part-0" [4]),
       ((1 : Nat), PartFile.mk ".f.part-1" [5])]) ∧
    (([((1 : Nat), PartFile.mk ".f.part-1" [5]),
       ((0 : Nat), PartFile.mk ".f.part-0" [4])].map Prod.fst).Nodup) ∧
    (assemble_phase []
        ([((1 : Nat), PartFile.mk ".f.part-1" [5]),
          ((0 : Nat), PartFile.mk ".f.part-0" [4])].map Outcome.ok)
      = assemble_phase []
        ([((0 : Nat), PartFile.mk ".f.part-0" [4]),
          ((1 : Nat), PartFile.mk ".f.part-1" [5])].map Outcome.ok) ∧
    (∀ n p,
      (assemble_phase []
          ([((1 : Nat), PartFile.mk ".f.part-1" [5]),
            ((0 : Nat), PartFile.mk ".f.part-0" [4])].map Outcome.ok)).2.2.get? n
        = some (FsOp.copy p) →
      (assemble_phase []
          ([((1 : Nat), PartFile.mk ".f.part-1" [5]),
            ((0 : Nat), PartFile.mk ".f.part-0" [4])].map Outcome.ok)).2.2.get? (n + 1)
        = some (FsOp.remove p))) :=
  ⟨List.Perm.swap ((0 : Nat), PartFile.mk ".f.part-0" [4])
     ((1 : Nat), PartFile.mk ".f.part-1" [5]) [],
   by decide,
   assembly_order_independent
     [((1 : Nat), PartFile.mk ".f.part-1" [5]), ((0 : Nat), PartFile.mk ".f.part-0" [4])]
     [((0 : Nat), PartFile.mk ".f.part-0" [4]), ((1 : Nat), PartFile.mk ".f.part-1" [5])]
     (List.Perm.swap ((0 : Nat), PartFile.mk ".f.part-0" [4])
       ((1 : Nat), PartFile.mk ".f.part-1" [5]) [])
     (by decide)⟩

/-- Model of a Rust `PathBuf`, reduced to what `PartialGetter::new`
uses: the leading components and the optional final file-name component
(`PathBuf::file_name` returns `None` for paths such as a filesystem
root).  `set_file_name` replaces `file_name` and keeps `parent`. -/
structure RPath where
  parent : List String
  file_name : Option String
deriving DecidableEq, Repr

/-- Mirrors `struct PartialGetter` (src/main.rs lines 28-34). -/
structure PartialGetter where
  range : Range
  idx : Nat
  url : String
  dest : RPath
deriving DecidableEq, Repr

/-- Embedding of `PartialGetter::new` (src/main.rs lines 36-58): the
temporary path is the destination with its file name replaced by
`"." + file_name + ".part-" + idx`; a destination without a file-name
component hits `.expect("was supposed to be a filename")`, which aborts
the process. -/
def PartialGetter.new (rq : RangeQuery) (url : String) (dest : RPath) :
    Outcome PartialGetter :=
  match dest.file_name with
  | none => .panicked "was supposed to be a filename"
  | some final_filename =>
    .ok { range := rq.range, idx := rq.idx, url := url,
          dest := { parent := dest.parent,
                    file_name :=
                      some ("." ++ final_filename ++ ".part-" ++ Nat.repr rq.idx) } }

/-- C10: constructing a part fetcher returns normally exactly when the
destination has a file-name component, with the temporary path formed
alongside the destination by prefixing the file name with a dot and
appending `.part-<index>`; a destination without a file-name component
aborts the process instead of returning a recoverable error. -/
theorem partial_getter_new_spec (rq : RangeQuery) (url : String) (dest : RPath) :
    (∀ name, dest.file_name = some name →
      PartialGetter.new rq url dest = .ok
        { range := rq.range, idx := rq.idx, url := url,
          dest := { parent := dest.parent,
                    file_name := some ("." ++ name ++ ".part-" ++ Nat.repr rq.idx) } }) ∧
    (dest.file_name = none →
      PartialGetter.new rq url dest = .panicked "was supposed to be a filename") := by
  constructor
  · intro name h
    simp [PartialGetter.new, h]
  · intro h
    simp [PartialGetter.new, h]

/-- Witness for `partial_getter_new_spec`: a destination named
`file.bin` in a directory, and a destination with no file name. -/
theorem partial_getter_new_spec_witness :
    PartialGetter.new ⟨⟨0, 5⟩, 2⟩ "http://x/file.bin" ⟨["dl"], some "file.bin"⟩
      = .ok { range := ⟨0, 5⟩, idx := 2, url := "http://x/file.bin",
              dest := ⟨["dl"], some ".file.bin.part-2"⟩ } ∧
    PartialGetter.new ⟨⟨0, 5⟩, 2⟩ "http://x/file.bin" ⟨[], none⟩
      = .panicked "was supposed to be a filename" :=
  ⟨(partial_getter_new_spec ⟨⟨0, 5⟩, 2⟩ "http://x/file.bin"
      ⟨["dl"], some "file.bin"⟩).1 "file.bin" rfl,
   (partial_getter_new_spec ⟨⟨0, 5⟩, 2⟩ "http://x/file.bin" ⟨[], none⟩).2 rfl⟩

end Zrglng
